import Mathlib

/-!
Verification development for the TensorLog rule-to-dataflow compiler.

The embedding below follows `src/tensorlog.py` (the `Program` /
`ProPPRProgram` classes and the mode declarations) and
`src/theanoxcomp.py` (the theano cross-compiler).  The helper modules
`funs`, `ops`, `parser`, `bpcompiler` and `matrixdb` are not part of the
source tree; wherever one of their definitions is needed it is modelled
from the specification, and the corresponding doc comment says so.
-/

namespace TensorLog

/-- Goal from the rule parser: a predicate name (functor) applied to an
ordered list of argument terms (variables or constants). -/
structure Goal where
  functor : String
  args : List String
deriving DecidableEq, Repr

/-- Arity of a goal is the number of its arguments. -/
def Goal.arity (g : Goal) : Nat := g.args.length

/-- Modelled from the spec: the canonical string form `str(goal)` produced
by the missing `parser` module, used as the `_key` of a declaration.  A
goal prints as `functor(arg1,...,argk)`, and as the bare functor when it
has no arguments. -/
def goalString (g : Goal) : String :=
  match g.args with
  | [] => g.functor
  | _ => g.functor ++ "(" ++ String.intercalate "," g.args ++ ")"

/-- Rule from the rule parser: a head goal `lhs`, ordered body goals
`rhs`, an optional list of feature goals and an optional findall
sub-body (modelled from the spec; `parser.py` is not in the source
tree). -/
structure Rule where
  lhs : Goal
  rhs : List Goal
  features : List Goal := []
  findall : Option (List Goal) := none
deriving DecidableEq, Repr

/-- AbstractDeclaration from `src/tensorlog.py`: wraps a prototype goal;
its `_key` is the canonical string form of that goal. -/
structure AbstractDeclaration where
  prototype : Goal
deriving DecidableEq, Repr

/-- The `_key` field of a declaration: the canonical string of its
prototype goal (`self._key = str(goal)` in `AbstractDeclaration.__init__`). -/
def AbstractDeclaration.key (d : AbstractDeclaration) : String :=
  goalString d.prototype

/-- `getFunctor` of a declaration. -/
def AbstractDeclaration.functor (d : AbstractDeclaration) : String :=
  d.prototype.functor

/-- `getArity` of a declaration. -/
def AbstractDeclaration.getArity (d : AbstractDeclaration) : Nat :=
  d.prototype.arity

/-- Python hash of a declaration: `hash(self._key)`, a pure function of
the key string. -/
def declHash (d : AbstractDeclaration) : UInt64 :=
  d.key.hash

/-- A Python value that `AbstractDeclaration.__eq__` may be compared
against: `None`, another declaration, or an arbitrary non-declaration
object (represented by an opaque tag string). -/
inductive PyVal where
  | undef
  | decl (d : AbstractDeclaration)
  | other (tag : String)

/-- Embedding of `AbstractDeclaration.__eq__`:
`other and isinstance(other,AbstractDeclaration) and self._key == other._key`.
`None` and every falsy or non-declaration object compare unequal. -/
def declEq (d : AbstractDeclaration) (v : PyVal) : Bool :=
  match v with
  | .decl e => d.key == e.key
  | _ => false

/-- Operator IR.  `VecMatMulOp` is the variant the source's cross-compiler
handles (`ops.py` is not in the source tree; the remaining variants are
modelled from the spec's list of elementary operators: constant-assign,
Hadamard product, weighted combination).  Every operator declares a
destination variable and names its source variables. -/
inductive Op where
  | VecMatMulOp (dst src : String) (matMode : AbstractDeclaration) (transpose : Bool)
  | AssignOnehotToVar (dst : String) (onehotConst : String)
  | ComponentwiseVecMulOp (dst src1 src2 : String)
  | WeightedVec (dst weighter vec : String)
deriving DecidableEq, Repr

/-- Destination variable of an operator. -/
def Op.dst : Op → String
  | .VecMatMulOp d _ _ _ => d
  | .AssignOnehotToVar d _ => d
  | .ComponentwiseVecMulOp d _ _ => d
  | .WeightedVec d _ _ => d

/-- Function IR, modelled from the spec (`funs.py` is not in the source
tree): the variants are an operator sequence with its declared input
variables, a sum of sub-functions, the softmax-normalized wrapper
(called `NormalizedFunction` in `tensorlog.py` and `SoftmaxFunction` in
`theanoxcomp.py`), and the null function produced when the recursion
depth budget is exhausted (it records the mode it was built for). -/
inductive Func where
  | NullFunction (modeKey : String)
  | OpSeqFunction (opInputs : List String) (ops : List Op)
  | SumFunction (funs : List Func)
  | SoftmaxFunction (inner : Func)
deriving Repr

/-- Message vectors over the fixed entity-id space of dimension `n`. -/
def Vec (n : Nat) : Type := Fin n → ℝ

/-- The external matrix database interface: relation matrices retrievable
by (mode, transpose flag) and one-hot encodings of symbols. -/
structure DB (n : Nat) where
  matrix : AbstractDeclaration → Bool → Fin n → Fin n → ℝ
  onehot : String → Vec n

/-- The all-zero message vector. -/
def zeroVec (n : Nat) : Vec n := fun _ => 0

/-- Lookup in a variable-binding environment; an unbound variable reads
as the all-zero vector (the spec's SSA invariant rules this out). -/
def envLookup {n : Nat} (env : List (String × Vec n)) (k : String) : Vec n :=
  match env.find? (fun e => e.1 == k) with
  | some e => e.2
  | none => zeroVec n

/-- Modelled from the spec: forward semantics of a single operator
(`ops.py` is not in the source tree).  A vector-matrix product multiplies
the source message by the relation matrix (optionally transposed);
constant-assign binds the one-hot vector of a literal; the Hadamard
product multiplies elementwise; the weighted combination scales a vector
by the total mass of the weighter message. -/
noncomputable def applyOp {n : Nat} (db : DB n) (env : List (String × Vec n)) :
    Op → Vec n
  | .VecMatMulOp _ src matMode transpose =>
      fun j => ∑ i, envLookup env src i * db.matrix matMode transpose i j
  | .AssignOnehotToVar _ c => db.onehot c
  | .ComponentwiseVecMulOp _ a b =>
      fun i => envLookup env a i * envLookup env b i
  | .WeightedVec _ w s =>
      fun i => envLookup env s i * (∑ j, envLookup env w j)

/-- Modelled from the spec: run the operators of an operator sequence
strictly in declaration order, each writing exactly one new environment
binding (newest bindings shadow older ones, as Python dict assignment
does). -/
noncomputable def runOps {n : Nat} (db : DB n) :
    List Op → List (String × Vec n) → List (String × Vec n)
  | [], env => env
  | op :: rest, env => runOps db rest ((op.dst, applyOp db env op) :: env)

/-- Elementwise sum of a list of message vectors. -/
def sumVecs {n : Nat} (vs : List (Vec n)) : Vec n :=
  vs.foldr (fun v acc => fun i => v i + acc i) (zeroVec n)

/-- Embedding of the softmax expression built by
`CrossCompiler.fun2Expr` for a `SoftmaxFunction`
(`src/theanoxcomp.py`, line 112): the textbook softmax of the
unnormalized vector. -/
noncomputable def softmaxVec {n : Nat} (x : Vec n) : Vec n :=
  fun i => Real.exp (x i) / ∑ j, Real.exp (x j)

/-- The absolute tolerance of `TT.isclose` against zero: numpy/theano
default `atol = 1e-8` (with `rtol = 1e-5` scaled by the zero reference,
so `isclose(a, 0)` holds exactly when `|a| ≤ 1e-8`). -/
noncomputable def iscloseAtol : ℝ := 1e-8

/-- Embedding of `TNN.nnet.softmax(subExpr) * (1 - TT.isclose(subExpr, 0))`
(`src/theanoxcomp.py`, line 112): the softmax masked at every entry that
`isclose` considers zero, i.e. every entry of magnitude at most the
`1e-8` tolerance — not only the exactly-zero entries. -/
noncomputable def maskedSoftmax {n : Nat} (x : Vec n) : Vec n :=
  fun i => softmaxVec x i * (1 - (if |x i| ≤ iscloseAtol then 1 else 0))

/-- Embedding of `result / result.sum()` (`src/theanoxcomp.py`, line 113)
with total real division; when the denominator is zero the floating-point
code produces NaN entries, which `softmaxMaskNormChecked` below makes
observable. -/
noncomputable def softmaxMaskNorm {n : Nat} (x : Vec n) : Vec n :=
  fun i => maskedSoftmax x i / ∑ j, maskedSoftmax x j

/-- Embedding of `result / result.sum()` (`src/theanoxcomp.py`, line 113)
that models IEEE semantics of the division: when `result.sum()` is zero
every entry of the quotient is the undefined value 0/0 (NaN in the
floating-point execution), modelled as `none`. -/
noncomputable def softmaxMaskNormChecked {n : Nat} (x : Vec n) :
    Option (Vec n) :=
  if (∑ j, maskedSoftmax x j) = 0 then none
  else some (softmaxMaskNorm x)

mutual

/-- Modelled from the spec: forward evaluation of a Function
(`funs.py` is not in the source tree).  The null function returns the
all-zero vector; an operator sequence binds its declared inputs, runs its
operators in order, and returns the value bound to the last operator's
destination; a sum of functions returns the elementwise sum of its
sub-functions' results; the softmax wrapper renormalizes the inner
result while keeping zero entries zero. -/
noncomputable def Func.eval {n : Nat} (db : DB n) (inputs : List (Vec n)) :
    Func → Vec n
  | .NullFunction _ => zeroVec n
  | .OpSeqFunction opInputs ops =>
      let env := runOps db ops (List.zip opInputs inputs)
      match ops.getLast? with
      | some lastOp => envLookup env lastOp.dst
      | none => zeroVec n
  | .SumFunction fs => sumVecs (Func.evalList db inputs fs)
  | .SoftmaxFunction f => softmaxMaskNorm (Func.eval db inputs f)

/-- Forward evaluation mapped over a list of sub-functions. -/
noncomputable def Func.evalList {n : Nat} (db : DB n) (inputs : List (Vec n)) :
    List Func → List (Vec n)
  | [] => []
  | f :: t => Func.eval db inputs f :: Func.evalList db inputs t

end

/-- The configured maximum recursion depth (`MAXDEPTH=10` in
`src/tensorlog.py`). -/
def MAXDEPTH : Nat := 10

/-- The global normalization flag (`NORMALIZE=True` in
`src/tensorlog.py`). -/
def NORMALIZE : Bool := true

/-- The compiled-function cache `self.function`: a Python dict keyed by
`(mode, depth)`.  Dict keys compare by the declaration's `_key` string
(its `__eq__`/`__hash__`), so the embedding keys the cache by the mode's
canonical string together with the depth. -/
def Cache : Type := List ((String × Nat) × Func)

/-- Dict lookup in the compiled-function cache. -/
def cacheLookup (c : Cache) (k : String × Nat) : Option Func :=
  match c.find? (fun e => e.1 == k) with
  | some e => some e.2
  | none => none

/-- Dict assignment in the compiled-function cache: the new binding
replaces any previous binding of the same key. -/
def cacheInsert (c : Cache) (k : String × Nat) (f : Func) : Cache :=
  (k, f) :: c.filter (fun e => !(e.1 == k))

/-- Program from `src/tensorlog.py`: the parsed rules and the
compiled-function cache `self.function` (the database is an external
collaborator and is passed to evaluation separately). -/
structure Program where
  rules : List Rule
  function : Cache

/-- Modelled from the spec: `self.rules.rulesFor(mode)`
(`parser.RuleCollection` is not in the source tree) returns the rules
whose head matches the mode by predicate name and arity only. -/
def rulesFor (rules : List Rule) (mode : AbstractDeclaration) : List Rule :=
  rules.filter (fun r =>
    r.lhs.functor == mode.functor && r.lhs.arity == mode.getArity)

/-- A per-rule compiler: stands for
`bpcompiler.BPCompiler(mode,self,depth,rule).getFunction()`
(`bpcompiler.py` is not in the source tree, so the function it produces
for one rule body is kept as a parameter of the embedding; the claims
under verification treat it as opaque). -/
def RuleCompiler : Type := AbstractDeclaration → Nat → Rule → Func

/-- Store a compiled function in the program's function cache. -/
def setFun (p : Program) (key : String) (depth : Nat) (f : Func) : Program :=
  { p with function := cacheInsert p.function (key, depth) f }

/-- The combination step of `Program.compile`: a single matching rule is
compiled directly (no one-term sum), several matching rules are compiled
independently and wrapped in a `SumFunction`
(`src/tensorlog.py`, lines 83-92). -/
def compileCore (bpc : RuleCompiler) (mode : AbstractDeclaration)
    (depth : Nat) : List Rule → Func
  | [r] => bpc mode depth r
  | rs => Func.SumFunction (rs.map (bpc mode depth))

/-- The depth-0 normalization step of `Program.compile`
(`src/tensorlog.py`, lines 93-94): at depth 0, when global normalization
is enabled, the compiled function is wrapped in the softmax-normalized
wrapper (`funs.NormalizedFunction`); at any other depth it is left raw. -/
def normWrap (depth : Nat) (f : Func) : Func :=
  if depth == 0 && NORMALIZE then Func.SoftmaxFunction f else f

/-- Embedding of `Program.compile` (`src/tensorlog.py`, lines 72-95).
If the depth exceeds `MAXDEPTH` a `NullFunction` for the mode is cached
and returned.  Otherwise the matching rules are looked up; zero matches
is a fatal assertion (`assert False,'no rules match mode %s' % mode`),
one match compiles that rule directly, several matches are wrapped in a
`SumFunction`; at depth 0 with normalization enabled the cached entry is
overwritten by the normalized wrapper, and the entry now stored under
`(mode, depth)` is returned. -/
def Program.compile (bpc : RuleCompiler) (p : Program)
    (mode : AbstractDeclaration) (depth : Nat) :
    Except String (Func × Program) :=
  if MAXDEPTH < depth then
    .ok (Func.NullFunction mode.key,
         setFun p mode.key depth (Func.NullFunction mode.key))
  else
    match rulesFor p.rules mode with
    | [] => .error ("no rules match mode " ++ mode.key)
    | r :: rs =>
      let fout := normWrap depth (compileCore bpc mode depth (r :: rs))
      .ok (fout, setFun p mode.key depth fout)

/-- Embedding of `Program.eval` (`src/tensorlog.py`, lines 117-124):
compile the mode at depth 0 if `(mode,0)` is not yet cached, then
evaluate the cached function on the inputs.  The cache is only ever
extended, never evicted. -/
noncomputable def Program.eval {n : Nat} (bpc : RuleCompiler) (db : DB n)
    (p : Program) (mode : AbstractDeclaration) (inputs : List (Vec n)) :
    Except String (Vec n × Program) :=
  match cacheLookup p.function (mode.key, 0) with
  | some f => .ok (Func.eval db inputs f, p)
  | none =>
    match p.compile bpc mode 0 with
    | .error e => .error e
    | .ok (_, p1) =>
      match cacheLookup p1.function (mode.key, 0) with
      | some f => .ok (Func.eval db inputs f, p1)
      | none => .error "KeyError"

/-- Modelled from the spec: `matrixdb.assignGoal(var,const)`
(`matrixdb.py` is not in the source tree) builds the assignment goal
that binds the variable `var` to the constant `const`. -/
def assignGoal (var const : String) : Goal :=
  { functor := "assign", args := [var, const] }

/-- Embedding of `ProPPRProgram._moveFeaturesToRHS`
(`src/tensorlog.py`, lines 190-209).  A rule without a findall part must
carry exactly one constant feature `f`; the rewrite appends an
assignment goal binding the variable `upper(f)` to `f` and the goal
`weighted(upper(f))` to the body.  A rule with a findall part must carry
exactly one feature of the form `all(X)`; the rewrite appends the
findall goals and then `weighted(X)`.  Any other feature shape is a
fatal assertion at program-construction time. -/
def moveFeaturesToRHS (rule0 : Rule) : Except String Rule :=
  match rule0.findall with
  | none =>
    match rule0.features with
    | [f] =>
      let constFeature := f.functor
      let constAsVar := constFeature.toUpper
      .ok { lhs := rule0.lhs
            rhs := rule0.rhs ++
              [assignGoal constAsVar constFeature,
               { functor := "weighted", args := [constAsVar] }] }
    | _ => .error "multiple constant features not supported"
  | some findallGoals =>
    match rule0.features with
    | [featureLHS] =>
      if featureLHS.arity = 1 ∧ featureLHS.functor = "all" then
        let outputVar := featureLHS.args.headD ""
        .ok { lhs := rule0.lhs
              rhs := rule0.rhs ++ findallGoals ++
                [{ functor := "weighted", args := [outputVar] }] }
      else .error "non-constant features must be of the form all(X)"
    | _ => .error "feature generators of the form a,b are not supported"

/-- Symbolic theano expressions, as built by the cross-compiler in
`src/theanoxcomp.py`: named matrix placeholders (`TT.dmatrix`),
transposition, `v.dot(M)`, and the masked-softmax normalization
composite of lines 112-113. -/
inductive TExpr where
  | dmatrix (name : String)
  | transpose (m : TExpr)
  | dot (v m : TExpr)
  | softmaxMaskNormExpr (e : TExpr)
deriving DecidableEq, Repr

/-- Mutable state of the `CrossCompiler`: the namespace counter and the
`dbMatrixExpr` cache keyed by the matrix mode (a Python dict keyed by
the declaration, hence by its canonical string). -/
structure XCState where
  nameSpace : Nat
  dbMatrixExpr : List (String × TExpr)

/-- The `internalName` scheme of `TheanoEnv`
(`src/theanoxcomp.py`, line 29): `'n%d__%s' % (namespaceId, key)`. -/
def internalName (nsId : Nat) (key : String) : String :=
  "n" ++ toString nsId ++ "__" ++ key

/-- The placeholder name built by `CrossCompiler.matrixExpr`
(`src/theanoxcomp.py`, line 93): `"M__" + functor + "_" + args`. -/
def matrixVarName (m : AbstractDeclaration) : String :=
  "M__" ++ m.functor ++ "_" ++ String.join m.prototype.args

/-- Embedding of `CrossCompiler.matrixExpr`
(`src/theanoxcomp.py`, lines 88-96): return the cached placeholder for
the matrix mode, creating and caching a fresh `dmatrix` placeholder on
first use. -/
def matrixExpr (st : XCState) (m : AbstractDeclaration) : TExpr × XCState :=
  match st.dbMatrixExpr.find? (fun e => e.1 == m.key) with
  | some e => (e.2, st)
  | none =>
    let u := TExpr.dmatrix (matrixVarName m)
    (u, { st with dbMatrixExpr := st.dbMatrixExpr ++ [(m.key, u)] })

/-- Embedding of `CrossCompiler.op2Expr`
(`src/theanoxcomp.py`, lines 137-148): a `VecMatMulOp` becomes
`thEnv[op.src].dot(mExpr)` with the matrix transposed when requested;
every other operator kind is a fatal assertion
(`assert False,'cannot cross-compile %r' % op`). -/
def op2Expr (st : XCState) (thEnv : List (String × TExpr)) (nsId : Nat) :
    Op → Except String (TExpr × XCState)
  | .VecMatMulOp _ src matMode transpose =>
    let me := matrixExpr st matMode
    let mExpr := if transpose then TExpr.transpose me.1 else me.1
    match thEnv.find? (fun e => e.1 == internalName nsId src) with
    | some v => .ok (TExpr.dot v.2 mExpr, me.2)
    | none => .error "KeyError"
  | _ => .error "cannot cross-compile operator"

/-- The loop of `fun2Expr` over the operators of an `OpSeqFunction`
(`src/theanoxcomp.py`, lines 128-129): `thEnv[op.dst] = self.op2Expr(thEnv,op)`
for each operator in order. -/
def runXOps (nsId : Nat) :
    List Op → List (String × TExpr) → XCState →
    Except String (List (String × TExpr) × XCState)
  | [], env, st => .ok (env, st)
  | op :: rest, env, st =>
    match op2Expr st env nsId op with
    | .error e => .error e
    | .ok (expr, st1) =>
      runXOps nsId rest ((internalName nsId op.dst, expr) :: env) st1

/-- Embedding of `CrossCompiler.fun2Expr`
(`src/theanoxcomp.py`, lines 98-135).  A `SoftmaxFunction` wraps the
cross-compiled inner function in the masked-softmax normalization
expression; an `OpSeqFunction` first asserts that its declared inputs
match the requested number of inputs, allocates a fresh namespace, binds
placeholder inputs, translates its operators in order and returns the
expression bound to the last operator's destination; every other
Function kind is a fatal assertion
(`assert False,'cannot cross-compile %r' % fun`). -/
def fun2Expr (st : XCState) :
    Func → Nat → Except String ((List TExpr × TExpr) × XCState)
  | .SoftmaxFunction f, numInputs =>
    (match fun2Expr st f numInputs with
     | .error e => .error e
     | .ok (ie, st1) =>
       .ok ((ie.1, TExpr.softmaxMaskNormExpr ie.2), st1))
  | .OpSeqFunction opInputs ops, numInputs =>
    if opInputs.length = numInputs then
      let nsId := st.nameSpace
      let st1 : XCState := { st with nameSpace := st.nameSpace + 1 }
      let thEnv0 := opInputs.map
        (fun v => (internalName nsId v, TExpr.dmatrix (internalName nsId v)))
      let seqInputs := thEnv0.map (fun e => e.2)
      match runXOps nsId ops thEnv0 st1 with
      | .error e => .error e
      | .ok (env, st2) =>
        match ops.getLast? with
        | none => .error "IndexError"
        | some lastOp =>
          match env.find? (fun e => e.1 == internalName nsId lastOp.dst) with
          | some v => .ok ((seqInputs, v.2), st2)
          | none => .error "KeyError"
    else .error "mismatching number of inputs"
  | .SumFunction _, _ => .error "cannot cross-compile function"
  | .NullFunction _, _ => .error "cannot cross-compile function"

/-! ### Cache lemmas -/

theorem cacheLookup_insert_self (c : Cache) (k : String × Nat) (f : Func) :
    cacheLookup (cacheInsert c k f) k = some f := by
  simp [cacheLookup, cacheInsert, List.find?]

theorem cacheLookup_insert_other (c : Cache) (k k' : String × Nat) (f : Func)
    (h : k' ≠ k) : cacheLookup (cacheInsert c k f) k' = cacheLookup c k' := by
  have hbk : (k == k') = false := by
    simp only [beq_eq_false_iff_ne, ne_eq]
    exact fun hkk => h hkk.symm
  unfold cacheLookup cacheInsert
  simp only [List.find?, hbk]
  induction c with
  | nil => simp
  | cons e t ih =>
    by_cases he : (e.1 == k) = true
    · have hek : e.1 = k := by
        rcases k with ⟨k1, k2⟩; rcases e with ⟨⟨e1, e2⟩, ef⟩
        simp_all [Prod.ext_iff]
      have : (e.1 == k') = false := by
        simp [hek, beq_eq_false_iff_ne]
        exact fun hkk => h hkk.symm
      simp only [List.filter, he, List.find?, this]
      exact ih
    · simp only [List.filter, he, List.find?]
      cases hf : (e.1 == k')
      · simp only [hf, cond_false]
        exact ih
      · simp only [hf, cond_true]

/-! ### Demo fixtures used by witness theorems -/

/-- A demo mode declaration `p(i,o)`. -/
def demoMode : AbstractDeclaration := ⟨⟨"p", ["i", "o"]⟩⟩

/-- A demo rule `p(X,Y) :- q(X,Y)`. -/
def demoRuleA : Rule := { lhs := ⟨"p", ["X", "Y"]⟩, rhs := [⟨"q", ["X", "Y"]⟩] }

/-- A second demo rule `p(X,Y) :- r(X,Y)`. -/
def demoRuleB : Rule := { lhs := ⟨"p", ["X", "Y"]⟩, rhs := [⟨"r", ["X", "Y"]⟩] }

/-- A demo per-rule compiler producing a fixed operator sequence. -/
def demoBpc : RuleCompiler := fun _ _ _ => Func.OpSeqFunction ["x"] []

/-- A demo program with a single rule for `p/2` and an empty cache. -/
def demoProg1 : Program := { rules := [demoRuleA], function := [] }

/-- A demo program with two rules for `p/2` and an empty cache. -/
def demoProg2 : Program := { rules := [demoRuleA, demoRuleB], function := [] }

/-- A demo database over a one-element entity space. -/
noncomputable def demoDB : DB 1 :=
  { matrix := fun _ _ _ _ => 0, onehot := fun _ => zeroVec 1 }

/-! ### C1 -/

/-- C1: for every mode and every depth strictly greater than `MAXDEPTH`,
`Program.compile` succeeds (never raises), returns a `NullFunction` for
the mode whose evaluation is the all-zero vector, and stores that
function in the compiled-function cache under `(mode, depth)`. -/
theorem compile_depth_exceeded {n : Nat} (bpc : RuleCompiler) (p : Program)
    (mode : AbstractDeclaration) (depth : Nat) (db : DB n)
    (inputs : List (Vec n)) (h : MAXDEPTH < depth) :
    (∃ p1, p.compile bpc mode depth =
        .ok (Func.NullFunction mode.key, p1) ∧
      cacheLookup p1.function (mode.key, depth) =
        some (Func.NullFunction mode.key)) ∧
    Func.eval db inputs (Func.NullFunction mode.key) = zeroVec n := by
  refine ⟨⟨setFun p mode.key depth (Func.NullFunction mode.key), ?_, ?_⟩, rfl⟩
  · simp [Program.compile, h]
  · simpa [setFun] using
      cacheLookup_insert_self p.function (mode.key, depth)
        (Func.NullFunction mode.key)

/-- Witness for C1 at depth 11 on a concrete program. -/
theorem compile_depth_exceeded_witness :
    MAXDEPTH < 11 ∧
    ((∃ p1, demoProg1.compile demoBpc demoMode 11 =
        .ok (Func.NullFunction demoMode.key, p1) ∧
      cacheLookup p1.function (demoMode.key, 11) =
        some (Func.NullFunction demoMode.key)) ∧
    Func.eval demoDB [] (Func.NullFunction demoMode.key) = zeroVec 1) :=
  ⟨by decide,
   compile_depth_exceeded demoBpc demoProg1 demoMode 11 demoDB [] (by decide)⟩

/-! ### C2 -/

/-- Elementwise additivity of `SumFunction` evaluation. -/
theorem sumFunction_eval_elementwise {n : Nat} (db : DB n)
    (inputs : List (Vec n)) (fs : List Func) (i : Fin n) :
    Func.eval db inputs (Func.SumFunction fs) i =
      (fs.map (fun f => Func.eval db inputs f i)).sum := by
  show sumVecs (Func.evalList db inputs fs) i = _
  induction fs with
  | nil => simp [Func.evalList, sumVecs, zeroVec]
  | cons g t ih =>
    simp only [Func.evalList, sumVecs, List.foldr, List.map, List.sum_cons]
    simpa [sumVecs] using congrArg (Func.eval db inputs g i + ·) ih

/-- C2: within the depth budget, a mode matched by exactly one rule
compiles to the function for that rule directly (no sum wrapper, only
the depth-0 normalization wrapper of `normWrap`); a mode matched by more
than one rule compiles to a `SumFunction` over the functions compiled
independently from each matching rule, and evaluating a `SumFunction`
yields the elementwise sum of the per-rule contributions. -/
theorem compile_single_vs_sum {n : Nat} (bpc : RuleCompiler) (p : Program)
    (mode : AbstractDeclaration) (depth : Nat) (r : Rule) (rs : List Rule)
    (db : DB n) (inputs : List (Vec n)) (fs : List Func)
    (hd : depth ≤ MAXDEPTH) :
    (rulesFor p.rules mode = [r] →
      ∃ p1, p.compile bpc mode depth =
        .ok (normWrap depth (bpc mode depth r), p1)) ∧
    (rulesFor p.rules mode = r :: rs → rs ≠ [] →
      ∃ p1, p.compile bpc mode depth =
        .ok (normWrap depth
          (Func.SumFunction ((r :: rs).map (bpc mode depth))), p1)) ∧
    (∀ i, Func.eval db inputs (Func.SumFunction fs) i =
      (fs.map (fun f => Func.eval db inputs f i)).sum) := by
  have h1 : ¬ MAXDEPTH < depth := not_lt.mpr hd
  refine ⟨fun h => ?_, fun h hne => ?_,
    fun i => sumFunction_eval_elementwise db inputs fs i⟩
  · exact ⟨setFun p mode.key depth (normWrap depth (bpc mode depth r)),
      by simp [Program.compile, h1, h, compileCore]⟩
  · cases rs with
    | nil => exact absurd rfl hne
    | cons r2 t =>
      exact ⟨setFun p mode.key depth (normWrap depth
          (Func.SumFunction ((r :: r2 :: t).map (bpc mode depth)))),
        by simp [Program.compile, h1, h, compileCore]⟩

/-- Witness for C2 on a one-rule program at depth 1. -/
theorem compile_single_vs_sum_witness :
    1 ≤ MAXDEPTH ∧ rulesFor demoProg1.rules demoMode = [demoRuleA] ∧
    (∃ p1, demoProg1.compile demoBpc demoMode 1 =
      .ok (normWrap 1 (demoBpc demoMode 1 demoRuleA), p1)) :=
  ⟨by decide, by decide,
   (compile_single_vs_sum demoBpc demoProg1 demoMode 1 demoRuleA [] demoDB
     [] [] (by decide)).1 (by decide)⟩

/-! ### C5 -/

/-- C5: with global normalization enabled, compiling a defined mode at
depth 0 caches and returns the softmax-normalized wrapper around the
compiled result, while compiling at any depth greater than 0 caches the
raw compiled result (the per-rule function or sum produced by
`compileCore` within the budget, the `NullFunction` beyond it) with no
normalization wrapper. -/
theorem compile_normalization_at_depth0 (bpc : RuleCompiler) (p : Program)
    (mode : AbstractDeclaration) (r : Rule) (rs : List Rule)
    (h : rulesFor p.rules mode = r :: rs) :
    (∃ p0, p.compile bpc mode 0 =
        .ok (Func.SoftmaxFunction (compileCore bpc mode 0 (r :: rs)), p0) ∧
      cacheLookup p0.function (mode.key, 0) =
        some (Func.SoftmaxFunction (compileCore bpc mode 0 (r :: rs)))) ∧
    (∀ depth, 0 < depth → depth ≤ MAXDEPTH →
      ∃ p1, p.compile bpc mode depth =
        .ok (compileCore bpc mode depth (r :: rs), p1) ∧
      cacheLookup p1.function (mode.key, depth) =
        some (compileCore bpc mode depth (r :: rs))) ∧
    (∀ depth, MAXDEPTH < depth →
      ∃ p2, p.compile bpc mode depth =
        .ok (Func.NullFunction mode.key, p2) ∧
      cacheLookup p2.function (mode.key, depth) =
        some (Func.NullFunction mode.key)) := by
  refine ⟨?_, fun depth hpos hle => ?_, fun depth hgt => ?_⟩
  · have h1 : ¬ MAXDEPTH < 0 := by decide
    refine ⟨setFun p mode.key 0
        (Func.SoftmaxFunction (compileCore bpc mode 0 (r :: rs))),
      by simp [Program.compile, h1, h, normWrap, NORMALIZE], ?_⟩
    simpa [setFun] using
      cacheLookup_insert_self p.function (mode.key, 0)
        (Func.SoftmaxFunction (compileCore bpc mode 0 (r :: rs)))
  · have h1 : ¬ MAXDEPTH < depth := not_lt.mpr hle
    have h0 : (depth == 0) = false := by
      simpa using Nat.pos_iff_ne_zero.mp hpos
    refine ⟨setFun p mode.key depth (compileCore bpc mode depth (r :: rs)),
      by simp [Program.compile, h1, h, normWrap, h0], ?_⟩
    simpa [setFun] using
      cacheLookup_insert_self p.function (mode.key, depth)
        (compileCore bpc mode depth (r :: rs))
  · refine ⟨setFun p mode.key depth (Func.NullFunction mode.key),
      by simp [Program.compile, hgt], ?_⟩
    simpa [setFun] using
      cacheLookup_insert_self p.function (mode.key, depth)
        (Func.NullFunction mode.key)

/-- Witness for C5 on a two-rule program. -/
theorem compile_normalization_at_depth0_witness :
    rulesFor demoProg2.rules demoMode = [demoRuleA, demoRuleB] ∧
    (∃ p0, demoProg2.compile demoBpc demoMode 0 =
        .ok (Func.SoftmaxFunction
          (compileCore demoBpc demoMode 0 [demoRuleA, demoRuleB]), p0) ∧
      cacheLookup p0.function (demoMode.key, 0) =
        some (Func.SoftmaxFunction
          (compileCore demoBpc demoMode 0 [demoRuleA, demoRuleB]))) :=
  ⟨by decide,
   (compile_normalization_at_depth0 demoBpc demoProg2 demoMode demoRuleA
     [demoRuleB] (by decide)).1⟩

/-! ### C6 -/

/-- C6: within the depth budget, a mode matched by zero rules makes
`Program.compile` fail fatally with a message naming the offending mode;
no function is returned (and, the embedding returning an updated program
only on success, nothing is cached for that mode). -/
theorem compile_no_matching_rules (bpc : RuleCompiler) (p : Program)
    (mode : AbstractDeclaration) (depth : Nat)
    (hd : depth ≤ MAXDEPTH) (h : rulesFor p.rules mode = []) :
    p.compile bpc mode depth =
      .error ("no rules match mode " ++ mode.key) ∧
    ∀ f p1, p.compile bpc mode depth ≠ .ok (f, p1) := by
  have h1 : ¬ MAXDEPTH < depth := not_lt.mpr hd
  have he : p.compile bpc mode depth =
      .error ("no rules match mode " ++ mode.key) := by
    simp [Program.compile, h1, h]
  exact ⟨he, fun f p1 hok => by simp [he] at hok⟩

/-- A demo program with no rules at all. -/
def demoProgEmpty : Program := { rules := [], function := [] }

/-- Witness for C6 on a program with no rules. -/
theorem compile_no_matching_rules_witness :
    0 ≤ MAXDEPTH ∧ rulesFor demoProgEmpty.rules demoMode = [] ∧
    demoProgEmpty.compile demoBpc demoMode 0 =
      .error ("no rules match mode " ++ demoMode.key) :=
  ⟨by decide, by decide,
   (compile_no_matching_rules demoBpc demoProgEmpty demoMode 0 (by decide)
     (by decide)).1⟩

/-! ### C8 -/

/-- C8: `Program.eval` is deterministic and uses a lazily populated,
never-evicted cache.  Whenever an evaluation succeeds, the resulting
program state holds a compiled function for `(mode, 0)` whose evaluation
is the returned output, a repeated call on that state returns the
identical output with the cache unchanged (so the same cached function
is reused), and every cache entry present before the call is still
present afterwards. -/
theorem eval_deterministic_cached {n : Nat} (bpc : RuleCompiler) (db : DB n)
    (p : Program) (mode : AbstractDeclaration) (inputs : List (Vec n))
    (v : Vec n) (p1 : Program)
    (h : Program.eval bpc db p mode inputs = .ok (v, p1)) :
    (∃ f, cacheLookup p1.function (mode.key, 0) = some f ∧
      v = Func.eval db inputs f) ∧
    Program.eval bpc db p1 mode inputs = .ok (v, p1) ∧
    (∀ k g, cacheLookup p.function k = some g →
      cacheLookup p1.function k = some g) := by
  unfold Program.eval at h
  cases hc : cacheLookup p.function (mode.key, 0) with
  | some f =>
    rw [hc] at h
    simp only [Except.ok.injEq, Prod.mk.injEq] at h
    obtain ⟨hv, hp⟩ := h
    subst hp
    refine ⟨⟨f, hc, hv.symm⟩, ?_, fun k g hg => hg⟩
    unfold Program.eval
    rw [hc]
    simp only [hv]
  | none =>
    rw [hc] at h
    unfold Program.compile at h
    have h1 : ¬ MAXDEPTH < 0 := by decide
    rw [if_neg h1] at h
    cases hr : rulesFor p.rules mode with
    | nil => rw [hr] at h; exact absurd h (by simp)
    | cons r rs =>
      rw [hr] at h
      simp only at h
      rw [setFun, cacheLookup_insert_self] at h
      simp only [Except.ok.injEq, Prod.mk.injEq] at h
      obtain ⟨hv, hp⟩ := h
      set fout := normWrap 0 (compileCore bpc mode 0 (r :: rs)) with hfout
      have hlook : cacheLookup p1.function (mode.key, 0) = some fout := by
        rw [← hp]
        exact cacheLookup_insert_self p.function (mode.key, 0) fout
      refine ⟨⟨fout, hlook, hv.symm⟩, ?_, fun k g hg => ?_⟩
      · unfold Program.eval
        rw [hlook]
        simp only [hv]
      · rw [← hp]
        by_cases hk : k = (mode.key, 0)
        · rw [hk] at hg
          rw [hg] at hc
          exact absurd hc (by simp)
        · rw [cacheLookup_insert_other p.function (mode.key, 0) k fout hk]
          exact hg

/-- A zero-arity demo mode `q`. -/
def demoModeQ : AbstractDeclaration := ⟨⟨"q", []⟩⟩

/-- A demo program whose cache already holds a function for `(q, 0)`. -/
def demoProgCached : Program :=
  { rules := [],
    function := [((demoModeQ.key, 0), Func.NullFunction "q")] }

/-- Witness for C8 on a program with a pre-populated cache. -/
theorem eval_deterministic_cached_witness :
    (Program.eval demoBpc demoDB demoProgCached demoModeQ [] =
      .ok (Func.eval demoDB [] (Func.NullFunction "q"), demoProgCached)) ∧
    ((∃ f, cacheLookup demoProgCached.function (demoModeQ.key, 0) = some f ∧
        Func.eval demoDB [] (Func.NullFunction "q") =
          Func.eval demoDB [] f) ∧
     Program.eval demoBpc demoDB demoProgCached demoModeQ [] =
       .ok (Func.eval demoDB [] (Func.NullFunction "q"), demoProgCached) ∧
     (∀ k g, cacheLookup demoProgCached.function k = some g →
       cacheLookup demoProgCached.function k = some g)) :=
  ⟨rfl,
   eval_deterministic_cached demoBpc demoDB demoProgCached demoModeQ []
     (Func.eval demoDB [] (Func.NullFunction "q")) demoProgCached rfl⟩

/-! ### C3 -/

/-- C3 (counterexample to the claim as stated): a vector whose only
nonzero entry has magnitude below the `isclose` tolerance satisfies the
claim's hypothesis (it has a nonzero entry), yet the mask zeroes every
entry of the softmax output, the renormalization divides by a zero sum,
and no normalized output summing to 1 exists at this input. -/
theorem softmax_normalization_support_counterexample :
    (∃ i : Fin 1, (fun _ : Fin 1 => (1e-9:ℝ)) i ≠ 0) ∧
    softmaxMaskNormChecked (fun _ : Fin 1 => (1e-9:ℝ)) = none ∧
    ¬ ∃ y, softmaxMaskNormChecked (fun _ : Fin 1 => (1e-9:ℝ)) = some y ∧
      (∑ i, y i) = 1 ∧
      ∀ i, (fun _ : Fin 1 => (1e-9:ℝ)) i = 0 → y i = 0 := by
  have hm : ∀ i : Fin 1, maskedSoftmax (fun _ : Fin 1 => (1e-9:ℝ)) i = 0 := by
    intro i
    unfold maskedSoftmax
    have hc : |(1e-9:ℝ)| ≤ iscloseAtol := by
      rw [abs_of_pos (by norm_num : (0:ℝ) < 1e-9)]
      norm_num [iscloseAtol]
    simp [hc]
  have hs : (∑ i, maskedSoftmax (fun _ : Fin 1 => (1e-9:ℝ)) i) = 0 := by
    simp [hm]
  have hnone : softmaxMaskNormChecked (fun _ : Fin 1 => (1e-9:ℝ)) = none := by
    unfold softmaxMaskNormChecked
    rw [if_pos hs]
  refine ⟨⟨0, by norm_num⟩, hnone, ?_⟩
  rintro ⟨y, hy, -, -⟩
  rw [hnone] at hy
  exact Option.noConfusion hy

/-- C3 (amended): for every unnormalized vector with at least one entry
of magnitude strictly above the `isclose` tolerance 1e-8, the
cross-compiled normalization is defined, its output sums to exactly 1
over the whole vector (hence to 1 within 1e-6 over its support), and
every entry the mask treats as zero — in particular every entry that is
exactly zero before normalization — is exactly zero afterwards. -/
theorem softmax_normalization_above_tolerance {n : Nat} (x : Vec n)
    (hx : ∃ i, iscloseAtol < |x i|) :
    ∃ y, softmaxMaskNormChecked x = some y ∧
      (∑ i, y i) = 1 ∧
      |(∑ i, y i) - 1| ≤ 1e-6 ∧
      (∀ i, |x i| ≤ iscloseAtol → y i = 0) ∧
      (∀ i, x i = 0 → y i = 0) := by
  obtain ⟨i0, hi0⟩ := hx
  have hS : 0 < ∑ j, Real.exp (x j) :=
    Finset.sum_pos (fun j _ => Real.exp_pos (x j)) ⟨i0, Finset.mem_univ i0⟩
  have hmask0 : ∀ i, |x i| ≤ iscloseAtol → maskedSoftmax x i = 0 := by
    intro i hc
    unfold maskedSoftmax
    simp [hc]
  have hm_nonneg : ∀ i, 0 ≤ maskedSoftmax x i := by
    intro i
    by_cases hc : |x i| ≤ iscloseAtol
    · rw [hmask0 i hc]
    · unfold maskedSoftmax softmaxVec
      simp only [hc, if_neg]
      have : (0:ℝ) ≤ Real.exp (x i) / ∑ j, Real.exp (x j) :=
        div_nonneg (Real.exp_pos (x i)).le hS.le
      simpa using this
  have hm0 : 0 < maskedSoftmax x i0 := by
    have hc : ¬ |x i0| ≤ iscloseAtol := not_le.mpr hi0
    unfold maskedSoftmax softmaxVec
    simp only [hc, if_neg]
    have : (0:ℝ) < Real.exp (x i0) / ∑ j, Real.exp (x j) :=
      div_pos (Real.exp_pos (x i0)) hS
    simpa using this
  have hT : 0 < ∑ j, maskedSoftmax x j :=
    Finset.sum_pos' (fun i _ => hm_nonneg i) ⟨i0, Finset.mem_univ i0, hm0⟩
  have hTne : (∑ j, maskedSoftmax x j) ≠ 0 := ne_of_gt hT
  have hsum : (∑ i, softmaxMaskNorm x i) = 1 := by
    unfold softmaxMaskNorm
    rw [← Finset.sum_div]
    exact div_self hTne
  have hmaskedOut : ∀ i, |x i| ≤ iscloseAtol → softmaxMaskNorm x i = 0 := by
    intro i hc
    unfold softmaxMaskNorm
    rw [hmask0 i hc, zero_div]
  refine ⟨softmaxMaskNorm x, ?_, hsum, ?_, hmaskedOut, ?_⟩
  · unfold softmaxMaskNormChecked
    rw [if_neg hTne]
  · rw [hsum]; norm_num
  · intro i hz
    refine hmaskedOut i ?_
    rw [hz, abs_zero]
    norm_num [iscloseAtol]

/-- Witness for the amended C3 at the one-dimensional vector with
entry 1. -/
theorem softmax_normalization_above_tolerance_witness :
    (∃ i : Fin 1, iscloseAtol < |(fun _ : Fin 1 => (1:ℝ)) i|) ∧
    (∃ y, softmaxMaskNormChecked (fun _ : Fin 1 => (1:ℝ)) = some y ∧
      (∑ i, y i) = 1 ∧
      |(∑ i, y i) - 1| ≤ 1e-6 ∧
      (∀ i, |(fun _ : Fin 1 => (1:ℝ)) i| ≤ iscloseAtol → y i = 0) ∧
      (∀ i, (fun _ : Fin 1 => (1:ℝ)) i = 0 → y i = 0)) :=
  ⟨⟨0, by norm_num [iscloseAtol]⟩,
   softmax_normalization_above_tolerance (fun _ : Fin 1 => (1:ℝ))
     ⟨0, by norm_num [iscloseAtol]⟩⟩

/-! ### C4 -/

/-- C4 (code bug): on an all-zero unnormalized vector the zero-masking
step zeroes every entry of the softmax output, so the renormalization
divides by a zero sum; the floating-point code therefore computes 0/0
(NaN) instead of the all-zero vector the spec requires.  The checked
embedding of `result / result.sum()` returns `none` at this input. -/
theorem softmax_zero_input_divides_by_zero :
    (∑ i, maskedSoftmax (zeroVec 2) i) = 0 ∧
    softmaxMaskNormChecked (zeroVec 2) = none := by
  have hm : ∀ i : Fin 2, maskedSoftmax (zeroVec 2) i = 0 := by
    intro i
    unfold maskedSoftmax
    have hc : |zeroVec 2 i| ≤ iscloseAtol := by
      norm_num [zeroVec, iscloseAtol]
    simp [hc]
  have hs : (∑ i, maskedSoftmax (zeroVec 2) i) = 0 := by
    simp [hm]
  refine ⟨hs, ?_⟩
  unfold softmaxMaskNormChecked
  rw [if_pos hs]

/-! ### C7 -/

/-- C7: the ProPPR feature-rewrite maps a rule with a single constant
feature `f` (and no findall part) to the same head and body with an
assignment goal binding `upper(f)` to `f` and the goal
`weighted(upper(f))` appended; it maps a rule whose single feature is
`all(X)` with a findall sub-body to the same head and body with the
findall goals and then `weighted(X)` appended; rules with a feature count
other than one, or with a non-`all/1` feature generator, are rejected
fatally. -/
theorem moveFeatures_rewrite (r : Rule) (f : Goal) (gs : List Goal)
    (fl : Goal) (x : String) :
    (r.findall = none → r.features = [f] →
      moveFeaturesToRHS r = .ok
        { lhs := r.lhs
          rhs := r.rhs ++
            [assignGoal f.functor.toUpper f.functor,
             { functor := "weighted", args := [f.functor.toUpper] }] }) ∧
    (r.findall = some gs → r.features = [{ functor := "all", args := [x] }] →
      moveFeaturesToRHS r = .ok
        { lhs := r.lhs
          rhs := r.rhs ++ gs ++ [{ functor := "weighted", args := [x] }] }) ∧
    (r.features.length ≠ 1 → ∃ e, moveFeaturesToRHS r = .error e) ∧
    (r.findall = some gs → r.features = [fl] →
      ¬ (fl.arity = 1 ∧ fl.functor = "all") →
      ∃ e, moveFeaturesToRHS r = .error e) := by
  refine ⟨fun h1 h2 => ?_, fun h1 h2 => ?_, fun h => ?_, fun h1 h2 hbad => ?_⟩
  · simp [moveFeaturesToRHS, h1, h2]
  · simp [moveFeaturesToRHS, h1, h2, Goal.arity]
  · cases hfa : r.findall with
    | none =>
      cases hf : r.features with
      | nil => exact ⟨"multiple constant features not supported",
          by simp [moveFeaturesToRHS, hfa, hf]⟩
      | cons a t =>
        cases t with
        | nil => rw [hf] at h; exact absurd rfl h
        | cons b t2 => exact ⟨"multiple constant features not supported",
            by simp [moveFeaturesToRHS, hfa, hf]⟩
    | some gs2 =>
      cases hf : r.features with
      | nil => exact ⟨"feature generators of the form a,b are not supported",
          by simp [moveFeaturesToRHS, hfa, hf]⟩
      | cons a t =>
        cases t with
        | nil => rw [hf] at h; exact absurd rfl h
        | cons b t2 =>
          exact ⟨"feature generators of the form a,b are not supported",
            by simp [moveFeaturesToRHS, hfa, hf]⟩
  · refine ⟨"non-constant features must be of the form all(X)", ?_⟩
    simp only [moveFeaturesToRHS, h1, h2]
    rw [if_neg hbad]

/-- A demo ProPPR rule `p(X,Y) :- q(X,Y) {w1}` with one constant
feature. -/
def demoFeatRule : Rule :=
  { lhs := ⟨"p", ["X", "Y"]⟩, rhs := [⟨"q", ["X", "Y"]⟩],
    features := [⟨"w1", []⟩], findall := none }

/-- Witness for C7 on a rule with a single constant feature. -/
theorem moveFeatures_rewrite_witness :
    demoFeatRule.findall = none ∧ demoFeatRule.features = [⟨"w1", []⟩] ∧
    moveFeaturesToRHS demoFeatRule = .ok
      { lhs := demoFeatRule.lhs
        rhs := demoFeatRule.rhs ++
          [assignGoal (Goal.functor ⟨"w1", []⟩).toUpper
             (Goal.functor ⟨"w1", []⟩),
           { functor := "weighted",
             args := [(Goal.functor ⟨"w1", []⟩).toUpper] }] } :=
  ⟨rfl, rfl,
   (moveFeatures_rewrite demoFeatRule ⟨"w1", []⟩ [] ⟨"w1", []⟩ "X").1 rfl rfl⟩

/-! ### C9 -/

/-- C9: two declarations are equal exactly when the canonical string
forms of their prototype goals match; the comparison is reflexive and
symmetric, equal declarations have equal hash values, and a declaration
is never equal to `None` or to a non-declaration object. -/
theorem declaration_equality (d e : AbstractDeclaration) (s : String) :
    (declEq d (.decl e) = true ↔
      goalString d.prototype = goalString e.prototype) ∧
    declEq d (.decl d) = true ∧
    declEq d (.decl e) = declEq e (.decl d) ∧
    (declEq d (.decl e) = true → declHash d = declHash e) ∧
    declEq d .undef = false ∧
    declEq d (.other s) = false := by
  refine ⟨?_, ?_, ?_, fun h => ?_, rfl, rfl⟩
  · simp [declEq, AbstractDeclaration.key]
  · simp [declEq]
  · by_cases h : d.key = e.key
    · simp [declEq, h]
    · have h2 : e.key ≠ d.key := fun hh => h hh.symm
      simp [declEq, h, h2]
  · have hk : d.key = e.key := by simpa [declEq] using h
    unfold declHash
    rw [hk]

/-- Witness for C9: reflexive equality of a concrete declaration implies
equal hashes. -/
theorem declaration_equality_witness :
    declEq demoMode (.decl demoMode) = true ∧
    declHash demoMode = declHash demoMode :=
  ⟨(declaration_equality demoMode demoMode "x").2.1,
   (declaration_equality demoMode demoMode "x").2.2.2.1
     ((declaration_equality demoMode demoMode "x").2.1)⟩

/-! ### C10 -/

/-- C10: the theano cross-compiler is partial over the Function/Operator
IR: `fun2Expr` fails for a `SumFunction` and for a `NullFunction`,
`op2Expr` fails for every operator other than a `VecMatMulOp`, and for
an `OpSeqFunction` `fun2Expr` fails when the declared number of inputs
differs from the requested number. -/
theorem crosscompiler_partiality (st : XCState) (fs : List Func)
    (s : String) (numInputs : Nat) (env : List (String × TExpr))
    (nsId : Nat) (d c a b w vsrc : String) (ops : List Op)
    (opInputs : List String) :
    fun2Expr st (Func.SumFunction fs) numInputs =
      .error "cannot cross-compile function" ∧
    fun2Expr st (Func.NullFunction s) numInputs =
      .error "cannot cross-compile function" ∧
    op2Expr st env nsId (Op.AssignOnehotToVar d c) =
      .error "cannot cross-compile operator" ∧
    op2Expr st env nsId (Op.ComponentwiseVecMulOp d a b) =
      .error "cannot cross-compile operator" ∧
    op2Expr st env nsId (Op.WeightedVec d w vsrc) =
      .error "cannot cross-compile operator" ∧
    (opInputs.length ≠ numInputs →
      fun2Expr st (Func.OpSeqFunction opInputs ops) numInputs =
        .error "mismatching number of inputs") := by
  refine ⟨rfl, rfl, rfl, rfl, rfl, fun h => ?_⟩
  unfold fun2Expr
  rw [if_neg h]

/-- Witness for C10: an operator sequence declaring two inputs cannot be
cross-compiled when one input is requested. -/
theorem crosscompiler_partiality_witness :
    (["x", "y"].length ≠ 1) ∧
    fun2Expr ⟨0, []⟩ (Func.OpSeqFunction ["x", "y"] []) 1 =
      .error "mismatching number of inputs" :=
  ⟨by decide,
   (crosscompiler_partiality ⟨0, []⟩ [] "m" 1 [] 0 "d" "c" "a" "b" "w" "v"
     [] ["x", "y"]).2.2.2.2.2 (by decide)⟩

end TensorLog
